import Mathlib

/-!
Shallow embedding of `thoonk/feeds/sorted_feed.py` (class `SortedFeed`).

The feed's persisted state lives in Redis under four keys plus two pub/sub
channels.  We model that state as one record:

  * `feed_ids`       -- the Redis list behind `self.feed_ids` (the order store);
  * `feed_items`     -- the Redis hash behind `self.feed_items` (the item
                        store), modelled as an association list of
                        `(id, content)` pairs;
  * `feed_id_incr`   -- the integer counter behind `feed.idincr:[feed]`;
  * `feed_publishes` -- the integer counter behind `self.feed_publishes`;
  * `feed_publish`   -- the sequence of messages published so far on the
                        publish channel `self.feed_publish`;
  * `feed_retract`   -- the sequence of messages published so far on the
                        retract channel `self.feed_retract`.

The Redis commands used by the source (`INCR`, `RPUSH`, `LPUSH`, `LINSERT`,
`LREM key value 1`, `HSET`, `HDEL`, `HEXISTS`, `HGET`, `LRANGE 0 -1`) are
modelled as pure functions on this record.  In the sequential semantics the
`WATCH`/`MULTI`/`EXEC` retry loops of `edit`, `retract` and `__insert` always
succeed on the first attempt, so those methods reduce to: check the
precondition with `HEXISTS`, then apply the queued pipeline atomically.
The queued pipelines themselves are the `...Commit` functions below; a
separate small-step interleaved semantics for the `edit`/`retract` race is
given further down (`RaceConfig`).
-/

/-- Redis `HEXISTS` on an association-list model of a hash:
does the hash contain field `k`? -/
def hexists : List (Nat × String) → Nat → Bool
  | [], _ => false
  | p :: rest, k => p.1 == k || hexists rest k

/-- Redis `HGET`: the value stored under field `k`, if any. -/
def hget : List (Nat × String) → Nat → Option String
  | [], _ => none
  | p :: rest, k => if p.1 = k then some p.2 else hget rest k

/-- Redis `HSET`: overwrite the value under field `k`, or add the field. -/
def hset : List (Nat × String) → Nat → String → List (Nat × String)
  | [], k, v => [(k, v)]
  | p :: rest, k, v => if p.1 = k then (k, v) :: rest else p :: hset rest k v

/-- Redis `HDEL`: remove field `k` from the hash. -/
def hdel : List (Nat × String) → Nat → List (Nat × String)
  | [], _ => []
  | p :: rest, k => if p.1 = k then hdel rest k else p :: hdel rest k

/-- Redis `LINSERT key BEFORE|AFTER pivot v`: insert `v` next to the first
occurrence of `pivot`; if `pivot` is absent the list is unchanged.
`before = true` models the `'BEFORE'` method argument of `__insert`. -/
def linsert : List Nat → Bool → Nat → Nat → List Nat
  | [], _, _, _ => []
  | x :: xs, before, pivot, v =>
    if x = pivot then
      if before then v :: x :: xs else x :: v :: xs
    else
      x :: linsert xs before pivot v

/-- Redis `LREM key v` with count 1 (as in `retract`): remove the first
occurrence of `v` from the list. -/
def lrem1 : List Nat → Nat → List Nat
  | [], _ => []
  | x :: xs, v => if x = v then xs else x :: lrem1 xs v

/-- The per-feed Redis state used by `SortedFeed`. -/
structure FeedState where
  feed_ids : List Nat
  feed_items : List (Nat × String)
  feed_id_incr : Nat
  feed_publishes : Nat
  feed_publish : List String
  feed_retract : List String
deriving Repr, DecidableEq

namespace FeedState

/-- The empty feed: all keys unset (Redis treats an unset counter as 0). -/
def initial : FeedState :=
  { feed_ids := [], feed_items := [], feed_id_incr := 0,
    feed_publishes := 0, feed_publish := [], feed_retract := [] }

/-- `SortedFeed.publish` (lines 110-126): allocate an id with
`INCR feed.idincr`, then in one pipeline `RPUSH` the id onto the order list,
`INCR` the publish counter, `HSET` the content, and publish
`'%s\x00%s' % (id, item)` on the publish channel.  Returns the new id. -/
def publish (s : FeedState) (item : String) : Nat × FeedState :=
  let id := s.feed_id_incr + 1
  (id,
   { s with
     feed_id_incr := id,
     feed_ids := s.feed_ids ++ [id],
     feed_publishes := s.feed_publishes + 1,
     feed_items := hset s.feed_items id item,
     feed_publish := s.feed_publish ++ [toString id ++ "\x00" ++ item] })

/-- `SortedFeed.append` (lines 52-61): same as `publish`. -/
def append (s : FeedState) (item : String) : Nat × FeedState :=
  s.publish item

/-- `SortedFeed.prepend` (lines 63-77): like `publish` but `LPUSH`es the id
onto the head of the order list. -/
def prepend (s : FeedState) (item : String) : Nat × FeedState :=
  let id := s.feed_id_incr + 1
  (id,
   { s with
     feed_id_incr := id,
     feed_ids := id :: s.feed_ids,
     feed_publishes := s.feed_publishes + 1,
     feed_items := hset s.feed_items id item,
     feed_publish := s.feed_publish ++ [toString id ++ "\x00" ++ item] })

/-- The pipeline queued by `SortedFeed.__insert` (lines 98-101): `LINSERT`
the new id next to `rel_id`, `HSET` the content, publish
`'%s\x00%s' % (id, item)`.  Note: no publish-counter increment. -/
def insertCommit (s : FeedState) (id : Nat) (item : String) (rel_id : Nat)
    (before : Bool) : FeedState :=
  { s with
    feed_ids := linsert s.feed_ids before rel_id id,
    feed_items := hset s.feed_items id item,
    feed_publish := s.feed_publish ++ [toString id ++ "\x00" ++ item] }

/-- `SortedFeed.__insert` (lines 79-108): allocate an id (before any check),
then watch the item hash; if `rel_id` is not a field of the hash, unwatch and
return `None` (the allocated id is discarded); otherwise commit
`insertCommit`.  Sequentially the watch never fails. -/
def insert (s : FeedState) (item : String) (rel_id : Nat) (before : Bool) :
    Option Nat × FeedState :=
  let id := s.feed_id_incr + 1
  let s1 := { s with feed_id_incr := id }
  if hexists s1.feed_items rel_id then
    (some id, insertCommit s1 id item rel_id before)
  else
    (none, s1)

/-- `SortedFeed.publish_before` (lines 153-161): `__insert` with `'BEFORE'`. -/
def publish_before (s : FeedState) (before_id : Nat) (item : String) :
    Option Nat × FeedState :=
  s.insert item before_id true

/-- `SortedFeed.publish_after` (lines 163-171): `__insert` with `'AFTER'`. -/
def publish_after (s : FeedState) (after_id : Nat) (item : String) :
    Option Nat × FeedState :=
  s.insert item after_id false

/-- The pipeline queued by `SortedFeed.edit` (lines 142-145): `HSET` the new
content, `INCR` the publish counter, publish `'%s\x00%s' % (id, item)`. -/
def editCommit (s : FeedState) (id : Nat) (item : String) : FeedState :=
  { s with
    feed_items := hset s.feed_items id item,
    feed_publishes := s.feed_publishes + 1,
    feed_publish := s.feed_publish ++ [toString id ++ "\x00" ++ item] }

/-- `SortedFeed.edit` (lines 128-151): watch the item hash; if `id` is not a
field, unwatch and return (no-op); otherwise commit `editCommit`. -/
def edit (s : FeedState) (id : Nat) (item : String) : FeedState :=
  if hexists s.feed_items id then s.editCommit id item else s

/-- The pipeline queued by `SortedFeed.retract` (lines 183-186):
`LREM feed_ids id 1`, `HDEL feed_items id`, publish the bare id on the
retract channel. -/
def retractCommit (s : FeedState) (id : Nat) : FeedState :=
  { s with
    feed_ids := lrem1 s.feed_ids id,
    feed_items := hdel s.feed_items id,
    feed_retract := s.feed_retract ++ [toString id] }

/-- `SortedFeed.retract` (lines 173-194): watch the item hash; if `id` is a
field, commit `retractCommit`, else unwatch and return (no-op). -/
def retract (s : FeedState) (id : Nat) : FeedState :=
  if hexists s.feed_items id then s.retractCommit id else s

/-- `SortedFeed.get_ids` (lines 196-198): `LRANGE feed_ids 0 -1`. -/
def get_ids (s : FeedState) : List Nat :=
  s.feed_ids

/-- `SortedFeed.get_item` (lines 200-207): `HGET feed_items id`. -/
def get_item (s : FeedState) (id : Nat) : Option String :=
  hget s.feed_items id

/-- `SortedFeed.get_items` (lines 209-211): `HGETALL feed_items`. -/
def get_items (s : FeedState) : List (Nat × String) :=
  s.feed_items

end FeedState

/-- The order store and the item store hold the same set of ids
(Invariant I1), phrased as a decidable check. -/
def storesAgree (s : FeedState) : Bool :=
  s.feed_ids.all (fun i => hexists s.feed_items i) &&
  s.feed_items.all (fun p => s.feed_ids.contains p.1)

/-- The order store and the item store hold the same set of ids
(Invariant I1), phrased as a predicate over all ids. -/
def idsMatchItems (s : FeedState) : Prop :=
  ∀ i : Nat, i ∈ s.feed_ids ↔ hexists s.feed_items i = true

/-- The mutating operations of the Thoonk Standard API on one sorted feed. -/
inductive Op where
  | publish (item : String)
  | prepend (item : String)
  | publish_before (before_id : Nat) (item : String)
  | publish_after (after_id : Nat) (item : String)
  | edit (id : Nat) (item : String)
  | retract (id : Nat)
deriving Repr, DecidableEq

/-- Execute one API call and report the id drawn from the `feed.idincr`
counter by that call.  `publish`, `prepend` and `__insert` each run
`INCR feed.idincr` before anything else (so an insert whose anchor is
missing still draws an id); `edit` and `retract` never touch the counter. -/
def stepAlloc (s : FeedState) : Op → Option Nat × FeedState
  | .publish item => ((s.publish item).1, (s.publish item).2)
  | .prepend item => ((s.prepend item).1, (s.prepend item).2)
  | .publish_before b item => (some (s.feed_id_incr + 1), (s.publish_before b item).2)
  | .publish_after a item => (some (s.feed_id_incr + 1), (s.publish_after a item).2)
  | .edit id item => (none, s.edit id item)
  | .retract id => (none, s.retract id)

/-- Run a sequence of API calls from state `s`, collecting every id drawn
from the `feed.idincr` counter along the way (also the ids drawn by inserts
whose anchor was missing and whose id was therefore discarded). -/
def runOps (s : FeedState) : List Op → List Nat × FeedState
  | [] => ([], s)
  | op :: ops =>
    ((stepAlloc s op).1.toList ++ (runOps (stepAlloc s op).2 ops).1,
     (runOps (stepAlloc s op).2 ops).2)

/-- Program counter of one WATCH/CHECK/EXEC attempt of the optimistic loops
in `SortedFeed.edit` (lines 136-151) and `SortedFeed.retract`
(lines 180-194). -/
inductive Pc where
  | watching
  | checking
  | execing
  | noop
  | committed
deriving Repr, DecidableEq

/-- Global configuration for one `edit(id, A)` call racing one `retract(id)`
call on the same feed.  `ver` counts committed writes to the `feed_items`
key, which is exactly what `WATCH feed_items` observes; `ew` and `rw` record
the version each call saw at its most recent WATCH.  An EXEC succeeds iff
the watched key is unmodified, i.e. iff the recorded version still equals
`ver`. -/
structure RaceConfig where
  fs : FeedState
  ver : Nat
  epc : Pc
  ew : Nat
  rpc : Pc
  rw : Nat
deriving Repr, DecidableEq

/-- One Redis round-trip of the `edit(id, item)` call: WATCH, then the
HEXISTS check (unwatch-and-return when the id is gone), then EXEC of the
queued `editCommit` pipeline, retrying from WATCH on a WatchError. -/
def editStep (id : Nat) (item : String) (c : RaceConfig) : RaceConfig :=
  match c.epc with
  | .watching => { c with ew := c.ver, epc := .checking }
  | .checking =>
    if hexists c.fs.feed_items id then { c with epc := .execing }
    else { c with epc := .noop }
  | .execing =>
    if c.ew = c.ver then
      { c with fs := c.fs.editCommit id item, ver := c.ver + 1, epc := .committed }
    else
      { c with epc := .watching }
  | .noop => c
  | .committed => c

/-- One Redis round-trip of the `retract(id)` call, same shape as
`editStep` but committing the `retractCommit` pipeline. -/
def retractStep (id : Nat) (c : RaceConfig) : RaceConfig :=
  match c.rpc with
  | .watching => { c with rw := c.ver, rpc := .checking }
  | .checking =>
    if hexists c.fs.feed_items id then { c with rpc := .execing }
    else { c with rpc := .noop }
  | .execing =>
    if c.rw = c.ver then
      { c with fs := c.fs.retractCommit id, ver := c.ver + 1, rpc := .committed }
    else
      { c with rpc := .watching }
  | .noop => c
  | .committed => c

/-- Interleave the two calls: `true` runs the edit's next round-trip,
`false` the retract's.  A finished call stutters. -/
def raceStep (id : Nat) (item : String) (c : RaceConfig) (who : Bool) :
    RaceConfig :=
  if who then editStep id item c else retractStep id c

/-- Run the race under an arbitrary finite schedule. -/
def raceRun (id : Nat) (item : String) (c : RaceConfig) : List Bool → RaceConfig
  | [] => c
  | w :: ws => raceRun id item (raceStep id item c w) ws

/-- Inductive invariant of the `edit(id, _)` / `retract(id)` race started
from a well-formed feed in which `id` exists. -/
def RaceInv (id : Nat) (c : RaceConfig) : Prop :=
  storesAgree c.fs = true ∧
  c.fs.feed_ids.count id ≤ 1 ∧
  c.ew ≤ c.ver ∧
  c.rw ≤ c.ver ∧
  (c.rpc ≠ Pc.committed → hexists c.fs.feed_items id = true) ∧
  (c.rpc = Pc.committed →
    hexists c.fs.feed_items id = false ∧ id ∉ c.fs.feed_ids) ∧
  (c.epc = Pc.execing → c.ew = c.ver → hexists c.fs.feed_items id = true) ∧
  c.rpc ≠ Pc.noop

/-- A concrete one-item feed (id 1 carrying "x") used as a test state. -/
def sampleFeed : FeedState :=
  { feed_ids := [1], feed_items := [(1, "x")], feed_id_incr := 1,
    feed_publishes := 1, feed_publish := ["1\x00x"], feed_retract := [] }

/-- A state whose order store holds a duplicated id.  It still satisfies
the set equality between the two stores, but it is not reachable through
the API from the empty feed. -/
def dupFeed : FeedState :=
  { feed_ids := [5, 5], feed_items := [(5, "a")], feed_id_incr := 5,
    feed_publishes := 2, feed_publish := [], feed_retract := [] }

/-- A concrete two-item feed: ids 10 and 11 in order. -/
def pairFeed : FeedState :=
  { feed_ids := [10, 11], feed_items := [(10, "a"), (11, "b")],
    feed_id_incr := 11, feed_publishes := 2, feed_publish := [],
    feed_retract := [] }

/-- The empty feed with the id counter already at 9, so that the next three
allocations yield 10, 11 and 12 as in the spec's running example. -/
def tenFeed : FeedState :=
  { feed_ids := [], feed_items := [], feed_id_incr := 9,
    feed_publishes := 0, feed_publish := [], feed_retract := [] }

/-- Starting configuration for the `edit(7, _)` / `retract(7)` race: id 7
exists and both calls are about to issue their WATCH. -/
def raceStart : RaceConfig :=
  { fs := { feed_ids := [7], feed_items := [(7, "a")], feed_id_incr := 7,
            feed_publishes := 1, feed_publish := [], feed_retract := [] },
    ver := 0, epc := Pc.watching, ew := 0, rpc := Pc.watching, rw := 0 }

theorem hexists_iff_mem (h : List (Nat × String)) (k : Nat) :
    hexists h k = true ↔ ∃ v, (k, v) ∈ h := by
  induction h with
  | nil => simp [hexists]
  | cons p rest ih =>
    simp only [hexists, Bool.or_eq_true, beq_iff_eq, ih, List.mem_cons]
    constructor
    · rintro (rfl | ⟨v, hv⟩)
      · exact ⟨p.2, Or.inl rfl⟩
      · exact ⟨v, Or.inr hv⟩
    · rintro ⟨v, (hv | hv)⟩
      · left; rw [← hv]
      · right; exact ⟨v, hv⟩

theorem storesAgree_iff (s : FeedState) :
    storesAgree s = true ↔ idsMatchItems s := by
  simp only [storesAgree, Bool.and_eq_true, List.all_eq_true, idsMatchItems]
  constructor
  · rintro ⟨h1, h2⟩ i
    constructor
    · exact fun hi => h1 i hi
    · intro hi
      obtain ⟨v, hv⟩ := (hexists_iff_mem s.feed_items i).mp hi
      have := h2 (i, v) hv
      simpa [List.elem_iff] using this
  · intro h
    constructor
    · exact fun i hi => (h i).mp hi
    · intro p hp
      have : hexists s.feed_items p.1 = true :=
        (hexists_iff_mem s.feed_items p.1).mpr ⟨p.2, hp⟩
      simpa [List.elem_iff] using (h p.1).mpr this

theorem beq_symm_nat (a b : Nat) : (a == b) = (b == a) := by
  by_cases h : a = b <;> simp [h, Ne.symm]

theorem hexists_hset (h : List (Nat × String)) (k : Nat) (v : String) (i : Nat) :
    hexists (hset h k v) i = (i == k || hexists h i) := by
  induction h with
  | nil => simp [hset, hexists, beq_symm_nat]
  | cons p rest ih =>
    by_cases hp : p.1 = k
    · simp only [hset, if_pos hp, hexists, hp]
      by_cases hik : i = k
      · subst hik; simp
      · simp [hik, Ne.symm hik]
    · simp only [hset, if_neg hp, hexists, ih]
      cases hpi : (p.1 == i) <;> simp [hpi]

theorem hexists_hdel (h : List (Nat × String)) (k i : Nat) :
    hexists (hdel h k) i = (hexists h i && !(i == k)) := by
  induction h with
  | nil => simp [hdel, hexists]
  | cons p rest ih =>
    by_cases hp : p.1 = k
    · simp only [hdel, if_pos hp, hexists]
      rw [ih, hp]
      by_cases hik : i = k
      · subst hik; simp
      · have h1 : (k == i) = false := by simp [Ne.symm hik]
        rw [h1]
        simp
    · simp only [hdel, if_neg hp, hexists, ih]
      by_cases hpi : p.1 = i
      · have hik : i ≠ k := hpi ▸ hp
        have h1 : (p.1 == i) = true := by simp [hpi]
        have h2 : (i == k) = false := by simp [hik]
        rw [h1, h2]
        simp
      · have h1 : (p.1 == i) = false := by simp [hpi]
        rw [h1]
        simp

theorem hget_hdel_self (h : List (Nat × String)) (k : Nat) :
    hget (hdel h k) k = none := by
  induction h with
  | nil => simp [hdel, hget]
  | cons p rest ih =>
    by_cases hp : p.1 = k
    · simp only [hdel, if_pos hp]
      exact ih
    · simp only [hdel, if_neg hp, hget]
      simp [hp, ih]

theorem mem_linsert_of_pivot_mem (l : List Nat) (b : Bool) (pivot v i : Nat)
    (hp : pivot ∈ l) : i ∈ linsert l b pivot v ↔ i ∈ l ∨ i = v := by
  induction l with
  | nil => simp at hp
  | cons x xs ih =>
    by_cases hx : x = pivot
    · subst hx
      cases b <;> simp [linsert] <;> tauto
    · have hp' : pivot ∈ xs := by
        rcases List.mem_cons.mp hp with h | h
        · exact absurd h.symm hx
        · exact h
      simp only [linsert, if_neg hx, List.mem_cons, ih hp']
      tauto

theorem linsert_of_pivot_not_mem (l : List Nat) (b : Bool) (pivot v : Nat)
    (hp : pivot ∉ l) : linsert l b pivot v = l := by
  induction l with
  | nil => rfl
  | cons x xs ih =>
    have hx : x ≠ pivot := fun h => hp (h ▸ List.mem_cons_self x xs)
    have hp' : pivot ∉ xs := fun h => hp (List.mem_cons_of_mem x h)
    simp [linsert, hx, ih hp']

theorem linsert_append_first (l₁ l₂ : List Nat) (b : Bool) (pivot v : Nat)
    (hnot : pivot ∉ l₁) :
    linsert (l₁ ++ pivot :: l₂) b pivot v =
      l₁ ++ (if b then v :: pivot :: l₂ else pivot :: v :: l₂) := by
  induction l₁ with
  | nil => cases b <;> simp [linsert]
  | cons x xs ih =>
    have hx : x ≠ pivot := fun h => hnot (h ▸ List.mem_cons_self x xs)
    have hnot' : pivot ∉ xs := fun h => hnot (List.mem_cons_of_mem x h)
    simp [linsert, hx, ih hnot']

theorem lrem1_append_first (l₁ l₂ : List Nat) (v : Nat) (hnot : v ∉ l₁) :
    lrem1 (l₁ ++ v :: l₂) v = l₁ ++ l₂ := by
  induction l₁ with
  | nil => simp [lrem1]
  | cons x xs ih =>
    have hx : x ≠ v := fun h => hnot (h ▸ List.mem_cons_self x xs)
    have hnot' : v ∉ xs := fun h => hnot (List.mem_cons_of_mem x h)
    simp [lrem1, hx, ih hnot']

theorem mem_lrem1_of_ne (l : List Nat) (v i : Nat) (hne : i ≠ v) :
    i ∈ lrem1 l v ↔ i ∈ l := by
  induction l with
  | nil => simp [lrem1]
  | cons x xs ih =>
    by_cases hx : x = v
    · subst hx
      simp [lrem1, List.mem_cons]
      intro h
      exact absurd h hne
    · simp [lrem1, hx, List.mem_cons, ih]

theorem not_mem_lrem1_self (l : List Nat) (v : Nat) (hc : l.count v ≤ 1) :
    v ∉ lrem1 l v := by
  induction l with
  | nil => simp [lrem1]
  | cons x xs ih =>
    by_cases hx : x = v
    · subst hx
      simp only [lrem1, if_pos rfl]
      intro hmem
      have : 1 ≤ xs.count x := List.one_le_count_iff.mpr hmem
      simp [List.count_cons_self] at hc
      omega
    · simp only [lrem1, if_neg hx, List.mem_cons]
      rintro (h | h)
      · exact hx h.symm
      · have hc' : xs.count v ≤ 1 := by
          rw [List.count_cons] at hc
          omega
        exact ih hc' h

theorem idsMatchItems_publish (s : FeedState) (item : String)
    (h : idsMatchItems s) : idsMatchItems (s.publish item).2 := by
  intro i
  simp only [FeedState.publish, List.mem_append, List.mem_singleton,
    hexists_hset, Bool.or_eq_true, beq_iff_eq]
  rw [← h i]
  tauto

theorem idsMatchItems_prepend (s : FeedState) (item : String)
    (h : idsMatchItems s) : idsMatchItems (s.prepend item).2 := by
  intro i
  simp only [FeedState.prepend, List.mem_cons, hexists_hset,
    Bool.or_eq_true, beq_iff_eq]
  rw [← h i]

theorem idsMatchItems_insert (s : FeedState) (item : String) (r : Nat)
    (b : Bool) (h : idsMatchItems s) : idsMatchItems (s.insert item r b).2 := by
  unfold FeedState.insert
  by_cases hex : hexists s.feed_items r = true
  · have hrmem : r ∈ s.feed_ids := (h r).mpr hex
    simp only [hex, if_pos]
    intro i
    simp only [FeedState.insertCommit, hexists_hset, Bool.or_eq_true, beq_iff_eq]
    rw [mem_linsert_of_pivot_mem _ _ _ _ _ hrmem]
    rw [← h i]
    tauto
  · simp only [hex, if_neg, Bool.false_eq_true, not_false_eq_true]
    exact h

theorem idsMatchItems_edit (s : FeedState) (id : Nat) (c : String)
    (h : idsMatchItems s) : idsMatchItems (s.edit id c) := by
  unfold FeedState.edit
  by_cases hex : hexists s.feed_items id = true
  · rw [if_pos hex]
    intro i
    simp only [FeedState.editCommit, hexists_hset, Bool.or_eq_true, beq_iff_eq]
    constructor
    · intro hi
      exact Or.inr ((h i).mp hi)
    · rintro (rfl | hi)
      · exact (h i).mpr hex
      · exact (h i).mpr hi
  · rw [if_neg hex]
    exact h

theorem idsMatchItems_retract (s : FeedState) (id : Nat)
    (hc : s.feed_ids.count id ≤ 1) (h : idsMatchItems s) :
    idsMatchItems (s.retract id) := by
  unfold FeedState.retract
  by_cases hex : hexists s.feed_items id = true
  · rw [if_pos hex]
    intro i
    simp only [FeedState.retractCommit, hexists_hdel, Bool.and_eq_true,
      Bool.not_eq_true', beq_eq_false_iff_ne]
    by_cases hi : i = id
    · subst hi
      constructor
      · intro hmem
        exact absurd hmem (not_mem_lrem1_self _ _ hc)
      · rintro ⟨_, hne⟩
        exact absurd rfl hne
    · rw [mem_lrem1_of_ne _ _ _ hi, h i]
      exact ⟨fun hx => ⟨hx, hi⟩, fun hx => hx.1⟩
  · rw [if_neg hex]
    exact h


theorem insert_feed_id_incr (s : FeedState) (item : String) (r : Nat) (b : Bool) :
    (s.insert item r b).2.feed_id_incr = s.feed_id_incr + 1 := by
  unfold FeedState.insert
  by_cases hex : hexists s.feed_items r = true
  · simp [hex, FeedState.insertCommit]
  · simp [hex]

theorem edit_feed_id_incr (s : FeedState) (id : Nat) (c : String) :
    (s.edit id c).feed_id_incr = s.feed_id_incr := by
  unfold FeedState.edit
  split <;> simp [FeedState.editCommit]

theorem retract_feed_id_incr (s : FeedState) (id : Nat) :
    (s.retract id).feed_id_incr = s.feed_id_incr := by
  unfold FeedState.retract
  split <;> simp [FeedState.retractCommit]

theorem stepAlloc_some (s : FeedState) (op : Op) (n : Nat)
    (h : (stepAlloc s op).1 = some n) :
    n = s.feed_id_incr + 1 ∧
    (stepAlloc s op).2.feed_id_incr = s.feed_id_incr + 1 := by
  cases op with
  | publish item =>
    simp only [stepAlloc, FeedState.publish, Option.some.injEq] at h
    simp [stepAlloc, FeedState.publish, h]
  | prepend item =>
    simp only [stepAlloc, FeedState.prepend, Option.some.injEq] at h
    simp [stepAlloc, FeedState.prepend, h]
  | publish_before b item =>
    simp only [stepAlloc, Option.some.injEq] at h
    simp [stepAlloc, h, FeedState.publish_before, insert_feed_id_incr]
  | publish_after a item =>
    simp only [stepAlloc, Option.some.injEq] at h
    simp [stepAlloc, h, FeedState.publish_after, insert_feed_id_incr]
  | edit id item => simp [stepAlloc] at h
  | retract id => simp [stepAlloc] at h

theorem stepAlloc_incr_le (s : FeedState) (op : Op) :
    s.feed_id_incr ≤ (stepAlloc s op).2.feed_id_incr := by
  cases op with
  | publish item => simp [stepAlloc, FeedState.publish]
  | prepend item => simp [stepAlloc, FeedState.prepend]
  | publish_before b item =>
    simp [stepAlloc, FeedState.publish_before, insert_feed_id_incr]
  | publish_after a item =>
    simp [stepAlloc, FeedState.publish_after, insert_feed_id_incr]
  | edit id item => simp [stepAlloc, edit_feed_id_incr]
  | retract id => simp [stepAlloc, retract_feed_id_incr]

theorem runOps_alloc_lb (s : FeedState) (ops : List Op) :
    ∀ x ∈ (runOps s ops).1, s.feed_id_incr < x := by
  induction ops generalizing s with
  | nil => simp [runOps]
  | cons op ops ih =>
    intro x hx
    simp only [runOps, List.mem_append] at hx
    rcases hx with hx | hx
    · cases ha : (stepAlloc s op).1 with
      | none => rw [ha] at hx; simp at hx
      | some n =>
        rw [ha] at hx
        simp only [Option.toList_some, List.mem_singleton] at hx
        subst hx
        have := (stepAlloc_some s op x ha).1
        omega
    · have h2 := ih (stepAlloc s op).2 x hx
      have h3 := stepAlloc_incr_le s op
      omega

theorem idsMatchItems_editCommit (s : FeedState) (id : Nat) (c : String)
    (hex : hexists s.feed_items id = true) (h : idsMatchItems s) :
    idsMatchItems (s.editCommit id c) := by
  intro i
  simp only [FeedState.editCommit, hexists_hset, Bool.or_eq_true, beq_iff_eq]
  constructor
  · intro hi
    exact Or.inr ((h i).mp hi)
  · rintro (rfl | hi)
    · exact (h i).mpr hex
    · exact (h i).mpr hi

theorem idsMatchItems_retractCommit (s : FeedState) (id : Nat)
    (hc : s.feed_ids.count id ≤ 1) (h : idsMatchItems s) :
    idsMatchItems (s.retractCommit id) := by
  intro i
  simp only [FeedState.retractCommit, hexists_hdel, Bool.and_eq_true,
    Bool.not_eq_true', beq_eq_false_iff_ne]
  by_cases hi : i = id
  · subst hi
    constructor
    · intro hmem
      exact absurd hmem (not_mem_lrem1_self _ _ hc)
    · rintro ⟨_, hne⟩
      exact absurd rfl hne
  · rw [mem_lrem1_of_ne _ _ _ hi, h i]
    exact ⟨fun hx => ⟨hx, hi⟩, fun hx => hx.1⟩

theorem RaceInv_editStep (id : Nat) (item : String) (c : RaceConfig)
    (h : RaceInv id c) : RaceInv id (editStep id item c) := by
  obtain ⟨h1, h2, h3, h4, h5, h6, h7, h8⟩ := h
  cases hepc : c.epc with
  | watching =>
    have hstep : editStep id item c = { c with ew := c.ver, epc := .checking } := by
      unfold editStep; rw [hepc]
    rw [hstep]
    exact ⟨h1, h2, le_refl _, h4, h5, h6, fun hh => Pc.noConfusion hh, h8⟩
  | checking =>
    have hstep : editStep id item c =
        if hexists c.fs.feed_items id then { c with epc := .execing }
        else { c with epc := .noop } := by
      unfold editStep; rw [hepc]
    rw [hstep]
    by_cases hex : hexists c.fs.feed_items id = true
    · rw [if_pos hex]
      exact ⟨h1, h2, h3, h4, h5, h6, fun _ _ => hex, h8⟩
    · rw [if_neg hex]
      exact ⟨h1, h2, h3, h4, h5, h6, fun hh => Pc.noConfusion hh, h8⟩
  | execing =>
    have hstep : editStep id item c =
        if c.ew = c.ver then
          { c with fs := c.fs.editCommit id item, ver := c.ver + 1,
                   epc := .committed }
        else { c with epc := .watching } := by
      unfold editStep; rw [hepc]
    rw [hstep]
    by_cases hv : c.ew = c.ver
    · rw [if_pos hv]
      have hex : hexists c.fs.feed_items id = true := h7 hepc hv
      have hagree : idsMatchItems c.fs := (storesAgree_iff _).mp h1
      have hagree' : idsMatchItems (c.fs.editCommit id item) :=
        idsMatchItems_editCommit _ _ _ hex hagree
      refine ⟨(storesAgree_iff _).mpr hagree', h2,
        by show c.ew ≤ c.ver + 1; omega, by show c.rw ≤ c.ver + 1; omega,
        ?_, ?_, ?_, h8⟩
      · intro _
        simp [FeedState.editCommit, hexists_hset]
      · intro hrc
        exact absurd (h6 hrc).1 (by simp [hex])
      · intro hh
        exact Pc.noConfusion hh
    · rw [if_neg hv]
      exact ⟨h1, h2, h3, h4, h5, h6, fun hh => Pc.noConfusion hh, h8⟩
  | noop =>
    have hstep : editStep id item c = c := by
      unfold editStep; rw [hepc]
    rw [hstep]
    exact ⟨h1, h2, h3, h4, h5, h6, h7, h8⟩
  | committed =>
    have hstep : editStep id item c = c := by
      unfold editStep; rw [hepc]
    rw [hstep]
    exact ⟨h1, h2, h3, h4, h5, h6, h7, h8⟩

theorem RaceInv_retractStep (id : Nat) (c : RaceConfig)
    (h : RaceInv id c) : RaceInv id (retractStep id c) := by
  obtain ⟨h1, h2, h3, h4, h5, h6, h7, h8⟩ := h
  cases hrpc : c.rpc with
  | watching =>
    have hne : c.rpc ≠ Pc.committed := by rw [hrpc]; decide
    have hstep : retractStep id c = { c with rw := c.ver, rpc := .checking } := by
      unfold retractStep; rw [hrpc]
    rw [hstep]
    exact ⟨h1, h2, h3, le_refl _, fun _ => h5 hne,
      fun hc => Pc.noConfusion hc, h7, fun hh => Pc.noConfusion hh⟩
  | checking =>
    have hex : hexists c.fs.feed_items id = true := h5 (by rw [hrpc]; decide)
    have hstep : retractStep id c = { c with rpc := .execing } := by
      unfold retractStep; rw [hrpc, if_pos hex]
    rw [hstep]
    exact ⟨h1, h2, h3, h4, fun _ => hex, fun hc => Pc.noConfusion hc,
      h7, fun hh => Pc.noConfusion hh⟩
  | execing =>
    by_cases hv : c.rw = c.ver
    · have hex : hexists c.fs.feed_items id = true := h5 (by rw [hrpc]; decide)
      have hstep : retractStep id c =
          { c with fs := c.fs.retractCommit id, ver := c.ver + 1,
                   rpc := .committed } := by
        unfold retractStep; rw [hrpc, if_pos hv]
      rw [hstep]
      have hagree : idsMatchItems c.fs := (storesAgree_iff _).mp h1
      have hagree' : idsMatchItems (c.fs.retractCommit id) :=
        idsMatchItems_retractCommit _ _ h2 hagree
      have hnotmem : id ∉ lrem1 c.fs.feed_ids id := not_mem_lrem1_self _ _ h2
      have hcount : (lrem1 c.fs.feed_ids id).count id = 0 :=
        List.count_eq_zero.mpr hnotmem
      refine ⟨(storesAgree_iff _).mpr hagree', ?_,
        by show c.ew ≤ c.ver + 1; omega, by show c.rw ≤ c.ver + 1; omega,
        ?_, ?_, ?_, fun hh => Pc.noConfusion hh⟩
      · show (lrem1 c.fs.feed_ids id).count id ≤ 1
        rw [hcount]
        omega
      · intro hne
        exact absurd rfl hne
      · intro _
        refine ⟨?_, hnotmem⟩
        simp [FeedState.retractCommit, hexists_hdel]
      · intro _ hv2
        have hv3 : c.ew = c.ver + 1 := hv2
        exact absurd hv3 (by omega)
    · have hstep : retractStep id c = { c with rpc := .watching } := by
        unfold retractStep; rw [hrpc, if_neg hv]
      rw [hstep]
      exact ⟨h1, h2, h3, h4, fun _ => h5 (by rw [hrpc]; decide),
        fun hc => Pc.noConfusion hc, h7, fun hh => Pc.noConfusion hh⟩
  | noop =>
    exact absurd hrpc h8
  | committed =>
    have hstep : retractStep id c = c := by
      unfold retractStep; rw [hrpc]
    rw [hstep]
    exact ⟨h1, h2, h3, h4, h5, h6, h7, h8⟩

theorem RaceInv_raceStep (id : Nat) (item : String) (c : RaceConfig)
    (w : Bool) (h : RaceInv id c) : RaceInv id (raceStep id item c w) := by
  cases w with
  | true => simpa [raceStep] using RaceInv_editStep id item c h
  | false => simpa [raceStep] using RaceInv_retractStep id c h

theorem RaceInv_raceRun (id : Nat) (item : String) (c : RaceConfig)
    (sched : List Bool) (h : RaceInv id c) :
    RaceInv id (raceRun id item c sched) := by
  induction sched generalizing c with
  | nil => exact h
  | cons w ws ih => exact ih _ (RaceInv_raceStep id item c w h)

theorem insert_feed_publishes (s : FeedState) (item : String) (rel_id : Nat)
    (b : Bool) : (s.insert item rel_id b).2.feed_publishes = s.feed_publishes := by
  unfold FeedState.insert
  by_cases hex : hexists s.feed_items rel_id = true
  · simp [hex, FeedState.insertCommit]
  · simp [hex]

theorem retract_feed_publishes (s : FeedState) (id : Nat) :
    (s.retract id).feed_publishes = s.feed_publishes := by
  unfold FeedState.retract
  split <;> simp [FeedState.retractCommit]

theorem insert_feed_ids_first (s : FeedState) (item : String) (anchor : Nat)
    (b : Bool) (l₁ l₂ : List Nat)
    (hex : hexists s.feed_items anchor = true)
    (hdec : s.feed_ids = l₁ ++ anchor :: l₂) (hnot : anchor ∉ l₁) :
    (s.insert item anchor b).1 = some (s.feed_id_incr + 1) ∧
    (s.insert item anchor b).2.feed_ids =
      l₁ ++ (if b then (s.feed_id_incr + 1) :: anchor :: l₂
             else anchor :: (s.feed_id_incr + 1) :: l₂) := by
  unfold FeedState.insert
  simp only [hex, if_pos]
  refine ⟨trivial, ?_⟩
  show linsert s.feed_ids b anchor (s.feed_id_incr + 1) = _
  rw [hdec, linsert_append_first _ _ _ _ _ hnot]

/-- Claim C2: along any sequence of Thoonk API calls on one feed, the ids
drawn from the `feed.idincr` allocator are strictly increasing in draw
order -- no repeats, no decreases.  `runOps` collects every draw,
including the ids drawn by `publish_before`/`publish_after` calls whose
anchor was missing, so an id is never reassigned even when the mutation
that requested it aborted. -/
theorem allocator_ids_strictly_increasing (s : FeedState) (ops : List Op) :
    List.Chain' (· < ·) (runOps s ops).1 := by
  induction ops generalizing s with
  | nil => simp [runOps]
  | cons op ops ih =>
    simp only [runOps]
    cases ha : (stepAlloc s op).1 with
    | none => simpa using ih (stepAlloc s op).2
    | some n =>
      simp only [Option.toList_some, List.singleton_append]
      rw [List.chain'_cons']
      refine ⟨fun y hy => ?_, ih _⟩
      have hmem : y ∈ (runOps (stepAlloc s op).2 ops).1 :=
        List.mem_of_mem_head? hy
      have h1 := runOps_alloc_lb (stepAlloc s op).2 ops y hmem
      have h2 := stepAlloc_some s op n ha
      omega

/-- Claim C1, literal reading refuted: `dupFeed` satisfies the id-set
equality between the order store and the item store, yet `retract 5` run
from it removes only the first of the two list occurrences of 5 while
deleting the hash field, so the equality does not survive. -/
theorem retract_duplicate_I1_cex :
    storesAgree dupFeed = true ∧
    ¬ idsMatchItems (dupFeed.retract 5) := by
  refine ⟨by decide, fun h => ?_⟩
  have h5 := (h 5).mp (by decide)
  exact absurd h5 (by decide)

/-- Claim C1 (amended): started from any state in which the order store
and the item store hold the same set of ids, every mutation of the API
re-establishes that equality, where for `retract` the target id must
additionally occur at most once in the order store -- the side condition
forced by `retract_duplicate_I1_cex`, and satisfied by every feed the API
builds. -/
theorem mutation_preserves_I1 (s : FeedState) (item c : String)
    (a b i r : Nat) (h : storesAgree s = true) :
    idsMatchItems (s.publish item).2 ∧
    idsMatchItems (s.append item).2 ∧
    idsMatchItems (s.prepend item).2 ∧
    idsMatchItems (s.publish_before a item).2 ∧
    idsMatchItems (s.publish_after b item).2 ∧
    idsMatchItems (s.edit i c) ∧
    (s.feed_ids.count r ≤ 1 → idsMatchItems (s.retract r)) := by
  have h' := (storesAgree_iff s).mp h
  exact ⟨idsMatchItems_publish s item h',
    idsMatchItems_publish s item h',
    idsMatchItems_prepend s item h',
    idsMatchItems_insert s item a true h',
    idsMatchItems_insert s item b false h',
    idsMatchItems_edit s i c h',
    fun hc => idsMatchItems_retract s r hc h'⟩

/-- Witness for `mutation_preserves_I1` at the concrete state
`sampleFeed`. -/
theorem mutation_preserves_I1_witness :
    storesAgree sampleFeed = true ∧
    (idsMatchItems (sampleFeed.publish "y").2 ∧
     idsMatchItems (sampleFeed.append "y").2 ∧
     idsMatchItems (sampleFeed.prepend "y").2 ∧
     idsMatchItems (sampleFeed.publish_before 1 "y").2 ∧
     idsMatchItems (sampleFeed.publish_after 1 "y").2 ∧
     idsMatchItems (sampleFeed.edit 1 "z") ∧
     (sampleFeed.feed_ids.count 1 ≤ 1 →
       idsMatchItems (sampleFeed.retract 1))) :=
  ⟨by decide, mutation_preserves_I1 sampleFeed "y" "z" 1 1 1 1 (by decide)⟩

/-- Claim C3: under every interleaving of one `edit(id, item)` call with
one `retract(id)` call on a feed in which `id` exists (any configuration
satisfying `RaceInv`), the order store and the item store agree on their
id set at every point -- there is never a state with the id removed from
one store but present in the other -- and once both calls have finished,
the final state has the id removed from both stores, which is one of the
two permitted outcomes {content updated, id removed} (the retract always
commits, because nothing else can remove the id before it). -/
theorem edit_retract_race_safe (id : Nat) (item : String) (c : RaceConfig)
    (sched : List Bool) (h : RaceInv id c) :
    idsMatchItems (raceRun id item c sched).fs ∧
    (((raceRun id item c sched).epc = Pc.noop ∨
      (raceRun id item c sched).epc = Pc.committed) →
     ((raceRun id item c sched).rpc = Pc.noop ∨
      (raceRun id item c sched).rpc = Pc.committed) →
     hexists (raceRun id item c sched).fs.feed_items id = false ∧
     id ∉ (raceRun id item c sched).fs.feed_ids) := by
  obtain ⟨h1, h2, h3, h4, h5, h6, h7, h8⟩ := RaceInv_raceRun id item c sched h
  refine ⟨(storesAgree_iff _).mp h1, ?_⟩
  intro _ hr
  rcases hr with hr | hr
  · exact absurd hr h8
  · exact h6 hr

/-- Witness for `edit_retract_race_safe`: the race on id 7 from
`raceStart`, under the schedule that lets the edit commit first and the
retract commit afterwards. -/
theorem edit_retract_race_safe_witness :
    RaceInv 7 raceStart ∧
    (idsMatchItems (raceRun 7 "z" raceStart
        [true, true, true, false, false, false]).fs ∧
     (((raceRun 7 "z" raceStart
          [true, true, true, false, false, false]).epc = Pc.noop ∨
       (raceRun 7 "z" raceStart
          [true, true, true, false, false, false]).epc = Pc.committed) →
      ((raceRun 7 "z" raceStart
          [true, true, true, false, false, false]).rpc = Pc.noop ∨
       (raceRun 7 "z" raceStart
          [true, true, true, false, false, false]).rpc = Pc.committed) →
      hexists (raceRun 7 "z" raceStart
          [true, true, true, false, false, false]).fs.feed_items 7 = false ∧
      7 ∉ (raceRun 7 "z" raceStart
          [true, true, true, false, false, false]).fs.feed_ids)) :=
  ⟨by unfold RaceInv; decide, edit_retract_race_safe 7 "z" raceStart
      [true, true, true, false, false, false] (by unfold RaceInv; decide)⟩

/-- Claim C4: `publish_before` places the freshly allocated id immediately
before the first occurrence of the anchor in the order store, and
`publish_after` immediately after it; concretely, from `tenFeed` (counter
at 9), publish "a" returns 10, publish "b" returns 11, publish_before 11
"c" returns 12 and `get_ids` then reads [10, 12, 11]. -/
theorem publish_before_after_order (s : FeedState) (item : String)
    (anchor : Nat) (l₁ l₂ : List Nat)
    (hex : hexists s.feed_items anchor = true)
    (hdec : s.feed_ids = l₁ ++ anchor :: l₂) (hnot : anchor ∉ l₁) :
    ((s.publish_before anchor item).1 = some (s.feed_id_incr + 1) ∧
     (s.publish_before anchor item).2.feed_ids
       = l₁ ++ (s.feed_id_incr + 1) :: anchor :: l₂) ∧
    ((s.publish_after anchor item).1 = some (s.feed_id_incr + 1) ∧
     (s.publish_after anchor item).2.feed_ids
       = l₁ ++ anchor :: (s.feed_id_incr + 1) :: l₂) ∧
    (tenFeed.publish "a").1 = 10 ∧
    ((tenFeed.publish "a").2.publish "b").1 = 11 ∧
    (((tenFeed.publish "a").2.publish "b").2.publish_before 11 "c").1
      = some 12 ∧
    (((tenFeed.publish "a").2.publish "b").2.publish_before 11 "c").2.get_ids
      = [10, 12, 11] := by
  have hb := insert_feed_ids_first s item anchor true l₁ l₂ hex hdec hnot
  have ha := insert_feed_ids_first s item anchor false l₁ l₂ hex hdec hnot
  exact ⟨⟨hb.1, hb.2⟩, ⟨ha.1, ha.2⟩, by decide, by decide, by decide, by decide⟩

/-- Witness for `publish_before_after_order` at `pairFeed` with anchor
11. -/
theorem publish_before_after_order_witness :
    hexists pairFeed.feed_items 11 = true ∧
    pairFeed.feed_ids = [10] ++ 11 :: [] ∧
    11 ∉ ([10] : List Nat) ∧
    (((pairFeed.publish_before 11 "c").1 = some (pairFeed.feed_id_incr + 1) ∧
      (pairFeed.publish_before 11 "c").2.feed_ids
        = [10] ++ (pairFeed.feed_id_incr + 1) :: 11 :: []) ∧
     ((pairFeed.publish_after 11 "c").1 = some (pairFeed.feed_id_incr + 1) ∧
      (pairFeed.publish_after 11 "c").2.feed_ids
        = [10] ++ 11 :: (pairFeed.feed_id_incr + 1) :: []) ∧
     (tenFeed.publish "a").1 = 10 ∧
     ((tenFeed.publish "a").2.publish "b").1 = 11 ∧
     (((tenFeed.publish "a").2.publish "b").2.publish_before 11 "c").1
       = some 12 ∧
     (((tenFeed.publish "a").2.publish "b").2.publish_before 11 "c").2.get_ids
       = [10, 12, 11]) :=
  ⟨by decide, by decide, by decide,
   publish_before_after_order pairFeed "c" 11 [10] []
     (by decide) (by decide) (by decide)⟩

/-- Claim C5: a `publish_before` whose anchor is absent returns `None` and
leaves both stores untouched, but it has already advanced the id counter;
any subsequent draw from the allocator, by any operation, returns an id
strictly greater than the discarded `s.feed_id_incr + 1`, so the id
sequence keeps a permanent gap. -/
theorem missing_anchor_gap (s : FeedState) (X : Nat) (item : String)
    (h : hexists s.feed_items X = false) :
    (s.publish_before X item).1 = none ∧
    (s.publish_before X item).2.feed_ids = s.feed_ids ∧
    (s.publish_before X item).2.feed_items = s.feed_items ∧
    (s.publish_before X item).2.feed_id_incr = s.feed_id_incr + 1 ∧
    (∀ op n, (stepAlloc (s.publish_before X item).2 op).1 = some n →
      s.feed_id_incr + 1 < n) := by
  have hstep : s.publish_before X item
      = (none, { s with feed_id_incr := s.feed_id_incr + 1 }) := by
    unfold FeedState.publish_before FeedState.insert
    simp [h]
  rw [hstep]
  refine ⟨rfl, rfl, rfl, rfl, ?_⟩
  intro op n hn
  have h1 : n = { s with feed_id_incr := s.feed_id_incr + 1 }.feed_id_incr + 1 :=
    (stepAlloc_some _ op n hn).1
  have h2 : n = s.feed_id_incr + 1 + 1 := h1
  omega

/-- Witness for `missing_anchor_gap`: anchor 999 is absent from
`sampleFeed`. -/
theorem missing_anchor_gap_witness :
    hexists sampleFeed.feed_items 999 = false ∧
    ((sampleFeed.publish_before 999 "q").1 = none ∧
     (sampleFeed.publish_before 999 "q").2.feed_ids = sampleFeed.feed_ids ∧
     (sampleFeed.publish_before 999 "q").2.feed_items = sampleFeed.feed_items ∧
     (sampleFeed.publish_before 999 "q").2.feed_id_incr
       = sampleFeed.feed_id_incr + 1 ∧
     (∀ op n, (stepAlloc (sampleFeed.publish_before 999 "q").2 op).1 = some n →
       sampleFeed.feed_id_incr + 1 < n)) :=
  ⟨by decide, missing_anchor_gap sampleFeed 999 "q" (by decide)⟩

/-- Claim C6: `edit`, `retract`, `publish_before` and `publish_after`
whose target or anchor id is absent from the item store raise no error
(they are total functions here, mirroring the silent `return` in the
source) and change nothing observable: `edit` and `retract` return the
state unchanged, and the failed inserts leave the order store, the item
store, the `feed_publishes` counter and both notification channels exactly
as they were. -/
theorem missing_id_silent_noop (s : FeedState) (i a b : Nat)
    (c itm : String)
    (hi : hexists s.feed_items i = false)
    (ha : hexists s.feed_items a = false)
    (hb : hexists s.feed_items b = false) :
    s.edit i c = s ∧
    s.retract i = s ∧
    (s.publish_before a itm).2.feed_ids = s.feed_ids ∧
    (s.publish_before a itm).2.feed_items = s.feed_items ∧
    (s.publish_before a itm).2.feed_publishes = s.feed_publishes ∧
    (s.publish_before a itm).2.feed_publish = s.feed_publish ∧
    (s.publish_before a itm).2.feed_retract = s.feed_retract ∧
    (s.publish_after b itm).2.feed_ids = s.feed_ids ∧
    (s.publish_after b itm).2.feed_items = s.feed_items ∧
    (s.publish_after b itm).2.feed_publishes = s.feed_publishes ∧
    (s.publish_after b itm).2.feed_publish = s.feed_publish ∧
    (s.publish_after b itm).2.feed_retract = s.feed_retract := by
  have he : s.edit i c = s := by
    unfold FeedState.edit
    simp [hi]
  have hr : s.retract i = s := by
    unfold FeedState.retract
    simp [hi]
  have hba : s.publish_before a itm
      = (none, { s with feed_id_incr := s.feed_id_incr + 1 }) := by
    unfold FeedState.publish_before FeedState.insert
    simp [ha]
  have hbb : s.publish_after b itm
      = (none, { s with feed_id_incr := s.feed_id_incr + 1 }) := by
    unfold FeedState.publish_after FeedState.insert
    simp [hb]
  rw [hba, hbb]
  exact ⟨he, hr, rfl, rfl, rfl, rfl, rfl, rfl, rfl, rfl, rfl, rfl⟩

/-- Witness for `missing_id_silent_noop`: ids 999 and 1000 never existed
in `sampleFeed`, matching the spec's `edit(999, "z")` example. -/
theorem missing_id_silent_noop_witness :
    hexists sampleFeed.feed_items 999 = false ∧
    hexists sampleFeed.feed_items 1000 = false ∧
    (sampleFeed.edit 999 "z" = sampleFeed ∧
     sampleFeed.retract 999 = sampleFeed ∧
     (sampleFeed.publish_before 999 "w").2.feed_ids = sampleFeed.feed_ids ∧
     (sampleFeed.publish_before 999 "w").2.feed_items = sampleFeed.feed_items ∧
     (sampleFeed.publish_before 999 "w").2.feed_publishes
       = sampleFeed.feed_publishes ∧
     (sampleFeed.publish_before 999 "w").2.feed_publish
       = sampleFeed.feed_publish ∧
     (sampleFeed.publish_before 999 "w").2.feed_retract
       = sampleFeed.feed_retract ∧
     (sampleFeed.publish_after 1000 "w").2.feed_ids = sampleFeed.feed_ids ∧
     (sampleFeed.publish_after 1000 "w").2.feed_items
       = sampleFeed.feed_items ∧
     (sampleFeed.publish_after 1000 "w").2.feed_publishes
       = sampleFeed.feed_publishes ∧
     (sampleFeed.publish_after 1000 "w").2.feed_publish
       = sampleFeed.feed_publish ∧
     (sampleFeed.publish_after 1000 "w").2.feed_retract
       = sampleFeed.feed_retract) :=
  ⟨by decide, by decide,
   missing_id_silent_noop sampleFeed 999 999 1000 "z" "w"
     (by decide) (by decide) (by decide)⟩

/-- Claim C7: retracting an existing id removes it from the order store
while keeping the relative order of the other ids, and deletes it from
the item store, after which `get_item` returns not-found; concretely, in
the [10, 12, 11] scenario, `retract 12` leaves `get_ids` at [10, 11] and
`get_item 12` at none. -/
theorem retract_removes_id (s : FeedState) (X : Nat) (l₁ l₂ : List Nat)
    (hex : hexists s.feed_items X = true)
    (hdec : s.feed_ids = l₁ ++ X :: l₂) (hnot : X ∉ l₁) :
    (s.retract X).feed_ids = l₁ ++ l₂ ∧
    hexists (s.retract X).feed_items X = false ∧
    (s.retract X).get_item X = none ∧
    ((((tenFeed.publish "a").2.publish "b").2.publish_before 11 "c").2.retract
        12).get_ids = [10, 11] ∧
    ((((tenFeed.publish "a").2.publish "b").2.publish_before 11 "c").2.retract
        12).get_item 12 = none := by
  have hstep : s.retract X = s.retractCommit X := by
    unfold FeedState.retract
    simp [hex]
  rw [hstep]
  refine ⟨?_, ?_, ?_, by decide, by decide⟩
  · show lrem1 s.feed_ids X = l₁ ++ l₂
    rw [hdec]
    exact lrem1_append_first _ _ _ hnot
  · simp [FeedState.retractCommit, hexists_hdel]
  · show hget (hdel s.feed_items X) X = none
    exact hget_hdel_self _ _

/-- Witness for `retract_removes_id` at `pairFeed` with id 11. -/
theorem retract_removes_id_witness :
    hexists pairFeed.feed_items 11 = true ∧
    pairFeed.feed_ids = [10] ++ 11 :: [] ∧
    11 ∉ ([10] : List Nat) ∧
    ((pairFeed.retract 11).feed_ids = [10] ++ [] ∧
     hexists (pairFeed.retract 11).feed_items 11 = false ∧
     (pairFeed.retract 11).get_item 11 = none ∧
     ((((tenFeed.publish "a").2.publish "b").2.publish_before 11 "c").2.retract
         12).get_ids = [10, 11] ∧
     ((((tenFeed.publish "a").2.publish "b").2.publish_before 11 "c").2.retract
         12).get_item 12 = none) :=
  ⟨by decide, by decide, by decide,
   retract_removes_id pairFeed 11 [10] [] (by decide) (by decide) (by decide)⟩

/-- Claim C8: `prepend` pushes the new id onto the head of the order store
while `publish`/`append` push onto the tail; two consecutive prepends put
the second allocated id in front of the first, and from the empty feed
prepend "x" (returning 1) then prepend "y" (returning 2) leaves `get_ids`
at [2, 1]. -/
theorem prepend_lifo (s : FeedState) (x y : String) :
    (s.prepend x).2.feed_ids = (s.feed_id_incr + 1) :: s.feed_ids ∧
    ((s.prepend x).2.prepend y).2.feed_ids
      = (s.feed_id_incr + 1 + 1) :: (s.feed_id_incr + 1) :: s.feed_ids ∧
    (s.publish x).2.feed_ids = s.feed_ids ++ [s.feed_id_incr + 1] ∧
    (s.append x).2.feed_ids = s.feed_ids ++ [s.feed_id_incr + 1] ∧
    (FeedState.initial.prepend "x").1 = 1 ∧
    ((FeedState.initial.prepend "x").2.prepend "y").1 = 2 ∧
    ((FeedState.initial.prepend "x").2.prepend "y").2.get_ids = [2, 1] :=
  ⟨rfl, rfl, rfl, rfl, by decide, by decide, by decide⟩

/-- Claim C9: the message a successful `edit(id, content)` appends to the
publish channel is byte-for-byte the message a fresh `publish` that yields
the same id and content appends -- the id and the content joined by a null
separator -- so the two cannot be told apart on the wire. -/
theorem edit_notification_eq_publish (s t : FeedState) (id : Nat)
    (content : String)
    (hex : hexists s.feed_items id = true)
    (hid : t.feed_id_incr + 1 = id) :
    (s.edit id content).feed_publish
      = s.feed_publish ++ [toString id ++ "\x00" ++ content] ∧
    (t.publish content).2.feed_publish
      = t.feed_publish ++ [toString id ++ "\x00" ++ content] ∧
    (s.edit id content).feed_publish.drop s.feed_publish.length
      = (t.publish content).2.feed_publish.drop t.feed_publish.length := by
  subst hid
  have he : s.edit (t.feed_id_incr + 1) content
      = s.editCommit (t.feed_id_incr + 1) content := by
    unfold FeedState.edit
    simp [hex]
  rw [he]
  refine ⟨rfl, rfl, ?_⟩
  rw [show (s.editCommit (t.feed_id_incr + 1) content).feed_publish
      = s.feed_publish
        ++ [toString (t.feed_id_incr + 1) ++ "\x00" ++ content] from rfl]
  rw [show (t.publish content).2.feed_publish
      = t.feed_publish
        ++ [toString (t.feed_id_incr + 1) ++ "\x00" ++ content] from rfl]
  rw [List.drop_left, List.drop_left]

/-- Witness for `edit_notification_eq_publish`: editing id 1 in
`sampleFeed` against a fresh publish from the empty feed, which also
yields id 1. -/
theorem edit_notification_eq_publish_witness :
    hexists sampleFeed.feed_items 1 = true ∧
    FeedState.initial.feed_id_incr + 1 = 1 ∧
    ((sampleFeed.edit 1 "b").feed_publish
       = sampleFeed.feed_publish ++ [toString 1 ++ "\x00" ++ "b"] ∧
     (FeedState.initial.publish "b").2.feed_publish
       = FeedState.initial.feed_publish ++ [toString 1 ++ "\x00" ++ "b"] ∧
     (sampleFeed.edit 1 "b").feed_publish.drop sampleFeed.feed_publish.length
       = (FeedState.initial.publish "b").2.feed_publish.drop
           FeedState.initial.feed_publish.length) :=
  ⟨by decide, by decide,
   edit_notification_eq_publish sampleFeed FeedState.initial 1 "b"
     (by decide) (by decide)⟩

/-- Claim C10: `publish_before` and `publish_after` leave the
`feed_publishes` counter unchanged whether or not they commit, even though
a successful one emits a publish notification and writes both stores;
`publish`/`append`, `prepend` and a successful `edit` each increment it by
one, and `retract` also leaves it unchanged. -/
theorem insert_no_publish_counter (s : FeedState) (a b i r : Nat)
    (itm c : String) :
    (s.publish_before a itm).2.feed_publishes = s.feed_publishes ∧
    (s.publish_after b itm).2.feed_publishes = s.feed_publishes ∧
    (s.publish itm).2.feed_publishes = s.feed_publishes + 1 ∧
    (s.append itm).2.feed_publishes = s.feed_publishes + 1 ∧
    (s.prepend itm).2.feed_publishes = s.feed_publishes + 1 ∧
    (hexists s.feed_items i = true →
      (s.edit i c).feed_publishes = s.feed_publishes + 1) ∧
    (s.retract r).feed_publishes = s.feed_publishes := by
  refine ⟨insert_feed_publishes s itm a true,
    insert_feed_publishes s itm b false, rfl, rfl, rfl, ?_,
    retract_feed_publishes s r⟩
  intro hex
  unfold FeedState.edit
  simp [hex, FeedState.editCommit]

/-- Witness for `insert_no_publish_counter` at `sampleFeed`, whose id 1
exists so the edit clause fires. -/
theorem insert_no_publish_counter_witness :
    hexists sampleFeed.feed_items 1 = true ∧
    ((sampleFeed.publish_before 1 "w").2.feed_publishes
       = sampleFeed.feed_publishes ∧
     (sampleFeed.publish_after 1 "w").2.feed_publishes
       = sampleFeed.feed_publishes ∧
     (sampleFeed.publish "w").2.feed_publishes
       = sampleFeed.feed_publishes + 1 ∧
     (sampleFeed.append "w").2.feed_publishes
       = sampleFeed.feed_publishes + 1 ∧
     (sampleFeed.prepend "w").2.feed_publishes
       = sampleFeed.feed_publishes + 1 ∧
     (hexists sampleFeed.feed_items 1 = true →
       (sampleFeed.edit 1 "v").feed_publishes
         = sampleFeed.feed_publishes + 1) ∧
     (sampleFeed.retract 1).feed_publishes = sampleFeed.feed_publishes) :=
  ⟨by decide, insert_no_publish_counter sampleFeed 1 1 1 1 "w" "v"⟩
